import Mathlib

/-!
# Verification of the reviewer-recommendation evaluation engine

Shallow embedding of `src/advanced_evaluation.py` (class `AdvancedEvaluation`)
and proofs about its metric computations, orchestration and statistical-testing
control flow.

Conventions of the embedding:
* Python `float` scores are modelled as `ℚ` wherever the computation stays in
  the rationals, and as `ℝ` where the source takes logarithms or square roots
  (`np.log2`, `np.sqrt`).
* Python dicts keep insertion order; they are modelled as association lists.
* Ground-truth reviewer sets (`Python set`) are modelled as `Finset String`.
* Python's `sorted(..., key=lambda x: x[1], reverse=True)` is a stable sort,
  descending by score; a stable insertion sort (extensionally identical to any
  stable sort with the same key) models it.
* Fallible calls are modelled in `Except String`.
-/

namespace ReviewerEval

/-- A single algorithm's output: `pr_number -> {dev: score}` (association list,
insertion order preserved, keys distinct as Python dict keys are). -/
abbrev AlgoResult := List (Nat × List (String × ℚ))

/-- Ground truth: `pr_number -> set of actual reviewers`, in insertion order
(`_build_ground_truth` only inserts PRs that have at least one reviewer). -/
abbrev GroundTruth := List (Nat × Finset String)

/-- `pr_num in algo_result` / `algo_result[pr_num]` on the association list. -/
def lookupPR (res : AlgoResult) (pr : Nat) : Option (List (String × ℚ)) :=
  (List.find? (fun p => p.1 == pr) res).map Prod.snd

/-- One step of the stable descending insertion sort: insert `x` before the
first element whose score is not greater than `x`'s. -/
def insertDesc (x : String × ℚ) : List (String × ℚ) → List (String × ℚ)
  | [] => [x]
  | y :: ys => if x.2 < y.2 then y :: insertDesc x ys else x :: y :: ys

/-- `sorted(scores.items(), key=lambda x: x[1], reverse=True)`: stable sort,
descending by score.  Python's sort is stable; `sortDesc` is a stable insertion
sort, hence produces the same list. -/
def sortDesc (l : List (String × ℚ)) : List (String × ℚ) :=
  l.foldr insertDesc []

/-- The ranked candidate names of one request: sort descending by score and
project to the candidate identifiers (`[rec[0] for rec in sorted_recs]`). -/
def rankedNames (recs : List (String × ℚ)) : List String :=
  (sortDesc recs).map Prod.fst

/-- `num_correct = len(set(top_k) & actual_reviewers)` where
`top_k = [rec[0] for rec in sorted_recs[:k]]`. -/
def numCorrect (gt : Finset String) (names : List String) (k : Nat) : Nat :=
  ((names.take k).toFinset ∩ gt).card

/-- `precision = num_correct / k if k > 0 else 0` (denominator is the fixed k). -/
def precisionAt (gt : Finset String) (names : List String) (k : Nat) : ℚ :=
  if 0 < k then (numCorrect gt names k : ℚ) / k else 0

/-- `recall = num_correct / len(actual_reviewers) if actual_reviewers else 0`. -/
def recallAt (gt : Finset String) (names : List String) (k : Nat) : ℚ :=
  if gt.Nonempty then (numCorrect gt names k : ℚ) / gt.card else 0

/-- `f1 = 2 * (precision * recall) / (precision + recall)` when `P + R > 0`,
else `0`. -/
def f1At (gt : Finset String) (names : List String) (k : Nat) : ℚ :=
  let p := precisionAt gt names k
  let r := recallAt gt names k
  if 0 < p + r then 2 * (p * r) / (p + r) else 0

/-- `hit = 1 if num_correct > 0 else 0`. -/
def hitAt (gt : Finset String) (names : List String) (k : Nat) : ℚ :=
  if 0 < numCorrect gt names k then 1 else 0

/-- Scan of the ranked list from rank `r`; the first candidate found in the
ground-truth set yields `1/rank`, no match yields `0`. -/
def rrAux (gt : Finset String) : List String → Nat → ℚ
  | [], _ => 0
  | x :: xs, r => if x ∈ gt then (1 : ℚ) / r else rrAux gt xs (r + 1)

/-- Per-request reciprocal rank (`mrr_for_this_pr` in the source): `1/rank` of
the first recommended reviewer that is in the ground-truth set, else `0`. -/
def reciprocalRank (gt : Finset String) (names : List String) : ℚ :=
  rrAux gt names 1

/-- `relevant_ranks`: the 1-based ranks (over the whole ranked list) whose
candidate is a ground-truth reviewer, in increasing order. -/
def relevantRanks (gt : Finset String) (names : List String) : List Nat :=
  ((names.enum).filter (fun p => p.2 ∈ gt)).map (fun p => p.1 + 1)

/-- Per-request average precision: the mean of `(i+1) / relevant_ranks[i]`,
`0` when no recommended candidate is relevant. -/
def averagePrecision (gt : Finset String) (names : List String) : ℚ :=
  let rs := relevantRanks gt names
  if rs.isEmpty then 0
  else (((rs.enum).map (fun p => ((p.1 : ℚ) + 1) / p.2)).sum) / rs.length

/-- The rank weight `1 / log2(rank + 1)` (`np.log2` is the real base-2
logarithm). -/
noncomputable def rankWeight (r : Nat) : ℝ :=
  1 / Real.logb 2 ((r : ℝ) + 1)

/-- DCG@10: `for rank, (rec, score) in enumerate(sorted_recs[:10], 1):
dcg += relevance / log2(rank + 1)` with `relevance = 1` iff the candidate is a
ground-truth reviewer.  Written as the sum over the positions of the top-10
prefix. -/
noncomputable def dcg (gt : Finset String) (names : List String) : ℝ :=
  ∑ i ∈ Finset.range (min 10 names.length),
    if names.getD i "" ∈ gt then rankWeight (i + 1) else 0

/-- `idcg = sum(1.0 / log2(rank + 1) for rank in range(1, num_relevant + 1))`
with `num_relevant = min(len(actual_reviewers), 10)` — the first
`min(|groundTruth|, 10)` ideal positions, regardless of how many ground-truth
reviewers appear in the top-10. -/
noncomputable def idcg (gt : Finset String) : ℝ :=
  ∑ r ∈ Finset.range (min gt.card 10), rankWeight (r + 1)

/-- NDCG@10: `ndcg = dcg / idcg if idcg > 0 else 0` when `num_relevant > 0`,
and `0` when `num_relevant = 0`. -/
noncomputable def ndcg (gt : Finset String) (names : List String) : ℝ :=
  if 0 < min gt.card 10 then
    (if 0 < idcg gt then dcg gt names / idcg gt else 0)
  else 0

/-!
## Per-algorithm iteration over valid requests

`_calculate_algorithm_metrics` iterates `for pr_num, actual_reviewers in
self.ground_truth.items()`, skips PRs absent from `algo_result`
(`if pr_num not in algo_result: continue`), sorts, and skips empty ranked
lists (`if not sorted_recs: continue`).  Each surviving PR is a "valid"
request, processed in ground-truth insertion order.
-/

/-- The valid requests of one algorithm, in ground-truth iteration order:
`(pr_number, actual_reviewers, ranked candidate names)`. -/
def validEntries (gt : GroundTruth) (res : AlgoResult) :
    List (Nat × Finset String × List String) :=
  gt.filterMap fun p =>
    match lookupPR res p.1 with
    | none => none
    | some recs =>
      let sorted := rankedNames recs
      if sorted.isEmpty then none else some (p.1, p.2, sorted)

/-- `valid_prs`: the number of valid requests. -/
def validPrs (gt : GroundTruth) (res : AlgoResult) : Nat :=
  (validEntries gt res).length

/-- The per-item reciprocal-rank sequence (`per_pr_metrics['mrr_scores']`),
labelled with the PR each entry was computed for.  The source stores only the
scores; the labels record which request each position belongs to. -/
def mrrSequence (gt : GroundTruth) (res : AlgoResult) : List (Nat × ℚ) :=
  (validEntries gt res).map fun e => (e.1, reciprocalRank e.2.1 e.2.2)

/-- `per_pr_metrics['mrr_scores']`: the raw reciprocal-rank score list. -/
def mrrScores (gt : GroundTruth) (res : AlgoResult) : List ℚ :=
  (mrrSequence gt res).map Prod.snd

/-- `per_pr_metrics['ap_scores']`. -/
def apScores (gt : GroundTruth) (res : AlgoResult) : List ℚ :=
  (validEntries gt res).map fun e => averagePrecision e.2.1 e.2.2

/-- `per_pr_metrics['precision_at_5']`. -/
def precision5Scores (gt : GroundTruth) (res : AlgoResult) : List ℚ :=
  (validEntries gt res).map fun e => precisionAt e.2.1 e.2.2 5

/-- `per_pr_metrics['recall_at_5']`. -/
def recall5Scores (gt : GroundTruth) (res : AlgoResult) : List ℚ :=
  (validEntries gt res).map fun e => recallAt e.2.1 e.2.2 5

/-- Whether a ground-truth entry is a valid request for `res`: present in the
algorithm's result with a non-empty ranked list. -/
def hasResult (res : AlgoResult) (p : Nat × Finset String) : Bool :=
  match lookupPR res p.1 with
  | none => false
  | some recs => !(rankedNames recs).isEmpty

/-!
## Stability metrics

`np.percentile` (default linear interpolation between order statistics),
`np.median` (equal to the 50th percentile under that method), `np.mean`, and
`np.std` (population standard deviation, `ddof = 0`).
-/

/-- One step of an ascending insertion sort on rationals. -/
def insertAsc (x : ℚ) : List ℚ → List ℚ
  | [] => [x]
  | y :: ys => if y < x then y :: insertAsc x ys else x :: y :: ys

/-- Ascending sort of a list of rationals (order of equal values is
irrelevant for numeric order statistics). -/
def sortAsc (l : List ℚ) : List ℚ :=
  l.foldr insertAsc []

/-- `np.percentile(xs, q)` with the default linear interpolation: position
`q * (n - 1) / 100` between the ascending order statistics. -/
def percentile (xs : List ℚ) (q : ℚ) : ℚ :=
  let s := sortAsc xs
  let n := s.length
  if n = 0 then 0
  else
    let pos : ℚ := q * ((n : ℚ) - 1) / 100
    let lo : Nat := (Int.floor pos).toNat
    let frac : ℚ := pos - (lo : ℚ)
    let a := s.getD lo 0
    let b := s.getD (lo + 1) a
    a + frac * (b - a)

/-- `np.mean`. -/
def listMean (xs : List ℚ) : ℚ :=
  xs.sum / xs.length

/-- The population variance (`np.std` squared, `ddof = 0`). -/
def listVariance (xs : List ℚ) : ℚ :=
  (xs.map fun x => (x - listMean xs) ^ 2).sum / xs.length

/-- `np.std`: square root of the population variance. -/
noncomputable def listStd (xs : List ℚ) : ℝ :=
  Real.sqrt ((listVariance xs : ℚ) : ℝ)

/-- One stability record.  The source builds these as Python dicts; the `mrr`
record carries a `'cv'` key while the records for the other metrics do not,
hence `cv` is optional here. -/
structure StabRecord where
  q1 : ℚ
  q3 : ℚ
  iqr : ℚ
  median : ℚ
  std : ℝ
  cv : Option ℝ

/-- The stability record built for `'mrr'`:
`{q1, q3, iqr, median, std, cv}` with
`cv = np.std / np.mean if np.mean > 0 else 0`. -/
noncomputable def stabRecordWithCv (xs : List ℚ) : StabRecord :=
  { q1 := percentile xs 25
    q3 := percentile xs 75
    iqr := percentile xs 75 - percentile xs 25
    median := percentile xs 50
    std := listStd xs
    cv := some (if 0 < listMean xs then listStd xs / ((listMean xs : ℚ) : ℝ) else 0) }

/-- The stability record built for `'ap_scores'`, `'precision_at_5'` and
`'recall_at_5'`: `{q1, q3, iqr, median, std}` — no `'cv'` key. -/
noncomputable def stabRecordNoCv (xs : List ℚ) : StabRecord :=
  { q1 := percentile xs 25
    q3 := percentile xs 75
    iqr := percentile xs 75 - percentile xs 25
    median := percentile xs 50
    std := listStd xs
    cv := none }

/-- `stability_metrics`: empty when `per_pr_metrics['mrr_scores']` is empty;
otherwise the `'mrr'` record followed by records for the three other selected
metrics, each guarded by its own non-emptiness check. -/
noncomputable def stabilityMetrics (gt : GroundTruth) (res : AlgoResult) :
    List (String × StabRecord) :=
  if (mrrScores gt res).isEmpty then []
  else
    ("mrr", stabRecordWithCv (mrrScores gt res)) ::
      (List.filterMap
        (fun p => if (p.2 : List ℚ).isEmpty then none
                  else some (p.1, stabRecordNoCv p.2))
        [("ap_scores", apScores gt res),
         ("precision_at_5", precision5Scores gt res),
         ("recall_at_5", recall5Scores gt res)])

/-!
## The per-algorithm bundle and `evaluate_algorithms`
-/

/-- The aggregate `ranking_metrics` dict, filled only when `valid_prs > 0`. -/
structure RankingAgg where
  mrr : ℚ
  map : ℚ
  avgDcg : ℝ
  avgNdcg : ℝ

/-- The fields of the per-algorithm metrics bundle that the verified claims
refer to (the source dict also carries score-distribution statistics and
per-k aggregate tables, not referenced by any claim). -/
structure Metrics where
  validPrs : Nat
  mrrScores : List ℚ
  apScores : List ℚ
  precision5Scores : List ℚ
  recall5Scores : List ℚ
  rankingMetrics : Option RankingAgg
  stability : List (String × StabRecord)

/-- `_calculate_algorithm_metrics`: the bundle for one algorithm.
`ranking_metrics` stays an empty dict — modelled as `none` — unless
`valid_prs > 0`. -/
noncomputable def calcMetrics (gt : GroundTruth) (res : AlgoResult) : Metrics :=
  { validPrs := validPrs gt res
    mrrScores := mrrScores gt res
    apScores := apScores gt res
    precision5Scores := precision5Scores gt res
    recall5Scores := recall5Scores gt res
    rankingMetrics :=
      if 0 < validPrs gt res then
        some { mrr := listMean (mrrScores gt res)
               map := listMean (apScores gt res)
               avgDcg := ((validEntries gt res).map fun e => dcg e.2.1 e.2.2).sum
                           / (validPrs gt res : ℝ)
               avgNdcg := ((validEntries gt res).map fun e => ndcg e.2.1 e.2.2).sum
                           / (validPrs gt res : ℝ) }
      else none
    stability := stabilityMetrics gt res }

/-- The loop of `evaluate_algorithms`: algorithms with an empty result dict
are skipped (`if not algo_result: continue`); the call to
`_calculate_algorithm_metrics` is NOT wrapped in any `try`, so a raised error
propagates.  The per-algorithm computation is abstracted as `calc` so that the
fault behaviour can be stated; the actual code instantiates it with the total
`calcMetrics`. -/
def evalLoop (calcM : String → AlgoResult → Except String Metrics) :
    List (String × AlgoResult) → Except String (List (String × Metrics))
  | [] => .ok []
  | (name, res) :: rest =>
    if res.isEmpty then evalLoop calcM rest
    else
      match calcM name res with
      | .error e => .error e
      | .ok m =>
        match evalLoop calcM rest with
        | .error e => .error e
        | .ok tail => .ok ((name, m) :: tail)

/-- `evaluate_algorithms`: early return of `{}` on empty input or empty ground
truth, then the per-algorithm loop. -/
def evaluateAlgorithmsWith (gt : GroundTruth)
    (calcM : String → AlgoResult → Except String Metrics)
    (results : List (String × AlgoResult)) :
    Except String (List (String × Metrics)) :=
  if results.isEmpty then .ok []
  else if gt.isEmpty then .ok []
  else evalLoop calcM results

/-- `evaluate_algorithms` with the actual (total) metric computation. -/
noncomputable def evaluateAlgorithms (gt : GroundTruth)
    (results : List (String × AlgoResult)) :
    Except String (List (String × Metrics)) :=
  evaluateAlgorithmsWith gt (fun _ r => .ok (calcMetrics gt r)) results

/-!
## `_perform_statistical_testing`

The whole body sits inside a single `try`/`except Exception`: any error raised
by a statistical call is caught at the level of the entire step (the function
returns normally and the evaluation continues), but everything after the
raising call inside the step is skipped.  The two scipy calls are external to
this repository, so they enter the embedding as follows:
`scipy.stats.friedmanchisquare`'s statistic is an arbitrary real-valued
function parameter `fstat` (no claim depends on its value) while its p-value
is the chi-square survival probability of that statistic;
`scipy.stats.wilcoxon` is a fallible function parameter `wil`.
-/

/-- The result printed for the Friedman test: chi-square statistic and
p-value. -/
structure FriedmanResult where
  statistic : ℝ
  pValue : ℝ

/-- Modelled from the spec: `scipy.stats.friedmanchisquare` (external library,
not part of this repository) reports as p-value the survival probability of
its statistic under the chi-square distribution with `k - 1` degrees of
freedom, where `k` is the number of algorithms; chi-square with `d` degrees of
freedom is the Gamma distribution with shape `d / 2` and rate `1 / 2`. -/
noncomputable def friedmanPValue (k : Nat) (stat : ℝ) : ℝ :=
  1 - (ProbabilityTheory.gammaCDFReal (((k : ℝ) - 1) / 2) (1 / 2)) stat

/-- Modelled from the spec: `scipy.stats.wilcoxon` (external library, not part
of this repository) raises when every paired difference of its two input
sequences is zero, and otherwise returns a p-value (whose numeric value no
claim depends on; it is fixed to `1` here). -/
def wilcoxonModel (xs ys : List ℚ) : Except String ℚ :=
  if (xs.zip ys).all (fun p => p.1 == p.2) then .error "zero differences"
  else .ok 1

/-- The unordered pairs `(i, j)`, `i < j`, in the order of the source's nested
loop: `for i in range(n): for j in range(i+1, n)`. -/
def allPairs {α : Type} : List α → List (α × α)
  | [] => []
  | x :: xs => (xs.map fun y => (x, y)) ++ allPairs xs

/-- The pairwise Wilcoxon loop run inside the step-level `try`: pairs are
tested in order; the first raising call discards the pair results computed so
far only in the sense that no further pair is tested — results already
printed stand, and the loop reports the error message.  Returns the completed
`(name1, name2, p)` triples and the error of the first failing pair, if
any. -/
def runPairs (wil : List ℚ → List ℚ → Except String ℚ) :
    List ((String × List ℚ) × (String × List ℚ)) →
      List (String × String × ℚ) × Option String
  | [] => ([], none)
  | (a, b) :: rest =>
    match wil a.2 b.2 with
    | .error e => ([], some e)
    | .ok p =>
      let r := runPairs wil rest
      ((a.1, b.1, p) :: r.1, r.2)

/-- The observable outcome of `_perform_statistical_testing`. -/
inductive StatOutcome where
  | needTwoAlgos : StatOutcome
  | insufficientData (minLen : Nat) : StatOutcome
  | aborted (friedman : FriedmanResult) (completed : List (String × String × ℚ))
      (msg : String) : StatOutcome
  | completed (friedman : FriedmanResult)
      (pairs : List (String × String × ℚ)) : StatOutcome

/-- Whether the significance tests were actually run (the branch performing
the Friedman test was entered). -/
def StatOutcome.performed : StatOutcome → Bool
  | .aborted _ _ _ => true
  | .completed _ _ => true
  | _ => false

/-- The reported Friedman p-value, when testing was performed. -/
def StatOutcome.friedmanP : StatOutcome → Option ℝ
  | .aborted f _ _ => some f.pValue
  | .completed f _ => some f.pValue
  | _ => none

/-- The pairwise Wilcoxon results that were produced. -/
def StatOutcome.pairResults : StatOutcome → List (String × String × ℚ)
  | .aborted _ c _ => c
  | .completed _ p => p
  | _ => []

/-- `min_length`: the minimum length of the per-algorithm score sequences
(`float('inf')` start; `0` placeholder for the empty list, which is guarded
out). -/
def minLenOf (entries : List (String × List ℚ)) : Nat :=
  ((entries.map fun p => p.2.length).min?).getD 0

/-- `_perform_statistical_testing` over the per-algorithm
`per_pr_scores['mrr_scores']` sequences: fewer than two algorithms → early
return; gate `len(aligned_scores) >= 2 and min_length >= 10` → Friedman test
then the pairwise Wilcoxon loop, all under the step-level `try`; otherwise the
"not enough data" report. -/
noncomputable def performStatisticalTesting
    (fstat : List (List ℚ) → ℝ) (wil : List ℚ → List ℚ → Except String ℚ)
    (entries : List (String × List ℚ)) : StatOutcome :=
  if entries.length < 2 then .needTwoAlgos
  else
    let minLen := minLenOf entries
    let aligned := entries.map fun p => (p.1, p.2.take minLen)
    if 2 ≤ aligned.length ∧ 10 ≤ minLen then
      let stat := fstat (aligned.map Prod.snd)
      let fr : FriedmanResult := ⟨stat, friedmanPValue entries.length stat⟩
      let pr := runPairs wil (allPairs aligned)
      match pr.2 with
      | some e => .aborted fr pr.1 e
      | none => .completed fr pr.1
    else .insufficientData minLen

/-- The sequences handed to `_perform_statistical_testing` by
`evaluate_algorithms`: each algorithm's `per_pr_scores['mrr_scores']` (the key
is present in every computed bundle). -/
def statEntriesOf (detailed : List (String × Metrics)) : List (String × List ℚ) :=
  detailed.map fun p => (p.1, p.2.mrrScores)

/-!
## Concrete inputs used by witnesses and counterexamples
-/

/-- The ground truth of the worked spec example: `{PR1: {"alice", "bob"}}`. -/
def gtC1 : Finset String := {"alice", "bob"}

/-- The algorithm output of the worked spec example for PR1:
`[("carol", 0.9), ("alice", 0.8), ("bob", 0.7)]`. -/
def recsC1 : List (String × ℚ) := [("carol", 9/10), ("alice", 8/10), ("bob", 7/10)]

/-- A one-PR ground truth. -/
def gt0 : GroundTruth := [(1, {"alice"})]

/-- A one-PR algorithm result overlapping `gt0`. -/
def resA : AlgoResult := [(1, [("bob", 1)])]

/-- A metrics bundle value used by fault-injection counterexamples. -/
def mDummy : Metrics :=
  { validPrs := 0, mrrScores := [], apScores := [], precision5Scores := []
    recall5Scores := [], rankingMetrics := none, stability := [] }

/-- A per-algorithm metric computation that raises for algorithm `"A"`. -/
def calcBad : String → AlgoResult → Except String Metrics :=
  fun name _ => if name = "A" then .error "boom" else .ok mDummy

/-- Two-PR ground truth for the alignment counterexample. -/
def gtC3 : GroundTruth := [(1, {"x"}), (2, {"x"})]

/-- An algorithm result covering only PR 2 of `gtC3`. -/
def resC3A : AlgoResult := [(2, [("y", 1)])]

/-- An algorithm result covering both PRs of `gtC3`. -/
def resC3B : AlgoResult := [(1, [("y", 1)]), (2, [("y", 1)])]

/-- Ten identical per-item scores. -/
def seq10 : List ℚ := List.replicate 10 0

/-- Ten per-item scores differing from `seq10` in the first position. -/
def seq10' : List ℚ := 1 :: List.replicate 9 0

/-- Nine per-item scores. -/
def seq9 : List ℚ := List.replicate 9 0

/-- An arbitrary concrete Friedman statistic function (no claim depends on the
statistic's value). -/
noncomputable def fstat0 : List (List ℚ) → ℝ := fun _ => 0

/-- An algorithm result covering both PRs of `gtC3` (same coverage as
`resC3B`, different recommendations). -/
def resC3W : AlgoResult := [(1, [("z", 1)]), (2, [("z", 1)])]

/-!
# Theorems
-/

/-- The worked example's ranked list: already descending by score. -/
theorem rankedNames_recsC1 : rankedNames recsC1 = ["carol", "alice", "bob"] := by
  norm_num [rankedNames, sortDesc, insertDesc, recsC1]

/-- Claim C1: for ground truth `{PR1: {alice, bob}}` and ranked output
carol=0.9, alice=0.8, bob=0.7, the per-item metrics are precision@1 = 0,
precision@3 = 2/3, recall@1 = 0, recall@3 = 1, reciprocal rank = 1/2,
average precision = 7/12, DCG@10 = 1/log2(3) + 1/log2(4); and precision@k
divides by the fixed k also when the list is shorter than k
(precision@5 = 2/5, precision@10 = 1/5). -/
theorem c1_per_item_metrics :
    precisionAt gtC1 (rankedNames recsC1) 1 = 0 ∧
    precisionAt gtC1 (rankedNames recsC1) 3 = 2/3 ∧
    recallAt gtC1 (rankedNames recsC1) 1 = 0 ∧
    recallAt gtC1 (rankedNames recsC1) 3 = 1 ∧
    reciprocalRank gtC1 (rankedNames recsC1) = 1/2 ∧
    averagePrecision gtC1 (rankedNames recsC1) = 7/12 ∧
    dcg gtC1 (rankedNames recsC1) = 1 / Real.logb 2 3 + 1 / Real.logb 2 4 ∧
    precisionAt gtC1 (rankedNames recsC1) 5 = 2/5 ∧
    precisionAt gtC1 (rankedNames recsC1) 10 = 1/5 := by
  have h1 : numCorrect gtC1 (rankedNames recsC1) 1 = 0 := by
    rw [rankedNames_recsC1]; decide
  have h3 : numCorrect gtC1 (rankedNames recsC1) 3 = 2 := by
    rw [rankedNames_recsC1]; decide
  have h5 : numCorrect gtC1 (rankedNames recsC1) 5 = 2 := by
    rw [rankedNames_recsC1]; decide
  have h10 : numCorrect gtC1 (rankedNames recsC1) 10 = 2 := by
    rw [rankedNames_recsC1]; decide
  have hcard : gtC1.card = 2 := by decide
  have hne : gtC1.Nonempty := by decide
  have hc : ¬ "carol" ∈ gtC1 := by decide
  have ha : "alice" ∈ gtC1 := by decide
  have hb : "bob" ∈ gtC1 := by decide
  refine ⟨?_, ?_, ?_, ?_, ?_, ?_, ?_, ?_, ?_⟩
  · norm_num [precisionAt, h1]
  · norm_num [precisionAt, h3]
  · norm_num [recallAt, h1, hcard, hne]
  · norm_num [recallAt, h3, hcard, hne]
  · rw [reciprocalRank, rankedNames_recsC1]
    norm_num [rrAux, hc, ha]
  · rw [averagePrecision, rankedNames_recsC1]
    have h : relevantRanks gtC1 ["carol", "alice", "bob"] = [2, 3] := by decide
    rw [h]
    norm_num [List.enum, List.enumFrom]
  · rw [dcg, rankedNames_recsC1]
    norm_num [Finset.sum_range_succ, rankWeight, hc, ha, hb]
  · norm_num [precisionAt, h5]
  · norm_num [precisionAt, h10]

/-- Claim C2 is false on the code: `evaluate_algorithms` wraps the call to
`_calculate_algorithm_metrics` in no `try`.  With a metric computation that
raises for algorithm "A", the fault reaches the caller as an uncaught error
and algorithm "B" is never evaluated (no output is produced at all). -/
theorem c2_counterexample :
    evaluateAlgorithmsWith gt0 calcBad [("A", resA), ("B", resA)] =
      .error "boom" := rfl

/-- Claim C2, amended: an internal error raised during one algorithm's metric
computation is not caught; it propagates out of `evaluate_algorithms` and the
remaining algorithms are not evaluated.  Only an algorithm whose result dict
is empty is skipped. -/
theorem c2_error_propagates (gt : GroundTruth)
    (calcM : String → AlgoResult → Except String Metrics)
    (name : String) (res : AlgoResult) (rest : List (String × AlgoResult))
    (e : String) (hgt : gt ≠ []) (hres : res ≠ [])
    (hcalc : calcM name res = .error e) :
    evaluateAlgorithmsWith gt calcM ((name, res) :: rest) = .error e := by
  simp [evaluateAlgorithmsWith, hgt, evalLoop, hres, hcalc]

/-- Witness for `c2_error_propagates` at a concrete input. -/
theorem c2_error_propagates_witness :
    evaluateAlgorithmsWith gt0 calcBad (("A", resA) :: [("B", resA)]) =
      .error "boom" :=
  c2_error_propagates gt0 calcBad "A" resA [("B", resA)] "boom"
    (by decide) (by decide) (by norm_num [calcBad])

/-- Claim C3 is false on the code: with ground truth `{1, 2}`, an algorithm A
covering only PR 2 and an algorithm B covering PRs 1 and 2, the first position
of the truncated sequences pairs A's metric for PR 2 with B's metric for
PR 1 — different requests. -/
theorem c3_counterexample :
    0 < min (mrrSequence gtC3 resC3A).length (mrrSequence gtC3 resC3B).length ∧
    ((mrrSequence gtC3 resC3A).getD 0 (0, 0)).1 ≠
      ((mrrSequence gtC3 resC3B).getD 0 (0, 0)).1 := by
  constructor
  · simp [mrrSequence, validEntries, gtC3, resC3A, resC3B, lookupPR,
      rankedNames, sortDesc, insertDesc]
  · simp [mrrSequence, validEntries, gtC3, resC3A, resC3B, lookupPR,
      rankedNames, sortDesc, insertDesc]

/-- The PR labels of the per-item sequence are the ground-truth keys that the
algorithm covers, in ground-truth order. -/
theorem mrrSequence_map_fst (gt : GroundTruth) (res : AlgoResult) :
    (mrrSequence gt res).map Prod.fst =
      gt.filterMap (fun p => if hasResult res p then some p.1 else none) := by
  induction gt with
  | nil => rfl
  | cons p gt ih =>
    simp only [mrrSequence, validEntries, List.filterMap_cons] at *
    cases h : lookupPR res p.1 with
    | none => simpa [hasResult, h] using ih
    | some recs =>
      by_cases he : (rankedNames recs).isEmpty
      · simpa [hasResult, h, he] using ih
      · simpa [hasResult, h, he] using ih

/-- Claim C3, amended: positions of the truncated per-item sequences pair
metrics of the same request only when the two algorithms cover exactly the
same ground-truth PRs (with non-empty ranked lists); then the PR-label
sequences coincide, and so do the labels at every common position.  An
algorithm missing some covered PR shifts its sequence, as
`c3_counterexample` shows. -/
theorem c3_aligned_when_same_coverage (gt : GroundTruth)
    (resX resY : AlgoResult)
    (h : ∀ p ∈ gt, hasResult resX p = hasResult resY p) :
    (mrrSequence gt resX).map Prod.fst = (mrrSequence gt resY).map Prod.fst ∧
    ∀ i : Nat, ((mrrSequence gt resX)[i]?).map Prod.fst =
      ((mrrSequence gt resY)[i]?).map Prod.fst := by
  have hmain : (mrrSequence gt resX).map Prod.fst =
      (mrrSequence gt resY).map Prod.fst := by
    rw [mrrSequence_map_fst, mrrSequence_map_fst]
    induction gt with
    | nil => rfl
    | cons p gt ih =>
      simp only [List.filterMap_cons]
      rw [h p (by simp)]
      cases hasResult resY p <;> simp
      all_goals exact ih fun q hq => h q (by simp [hq])
  refine ⟨hmain, fun i => ?_⟩
  rw [← List.getElem?_map, ← List.getElem?_map, hmain]

/-- Witness for `c3_aligned_when_same_coverage` at a concrete input: two
algorithms covering both PRs of `gtC3`. -/
theorem c3_aligned_when_same_coverage_witness :
    (mrrSequence gtC3 resC3B).map Prod.fst =
      (mrrSequence gtC3 resC3W).map Prod.fst ∧
    ∀ i : Nat, ((mrrSequence gtC3 resC3B)[i]?).map Prod.fst =
      ((mrrSequence gtC3 resC3W)[i]?).map Prod.fst :=
  c3_aligned_when_same_coverage gtC3 resC3B resC3W (by decide)

/-- With the actual (total) metric computation, the loop returns exactly the
algorithms whose result dict is non-empty, each paired with its bundle. -/
theorem evalLoop_total (gt : GroundTruth) (results : List (String × AlgoResult)) :
    evalLoop (fun _ r => .ok (calcMetrics gt r)) results =
      .ok ((results.filter fun p => !p.2.isEmpty).map
        fun p => (p.1, calcMetrics gt p.2)) := by
  induction results with
  | nil => rfl
  | cons q rest ih =>
    obtain ⟨name, res⟩ := q
    by_cases h : res.isEmpty
    · simp [evalLoop, h, ih]
    · simp [evalLoop, h, ih]

/-- Claim C5 is false on the code: an algorithm whose result dict is empty is
skipped by `continue` — no bundle is produced for it and it is absent from
the evaluation output (here the output is empty although algorithm "A" was
supplied). -/
theorem c5_counterexample :
    evaluateAlgorithms gt0 [("A", [])] = .ok [] := rfl

/-- Claim C5, amended: an algorithm whose result dict is empty yields no
bundle at all and is excluded from the evaluation output (hence from all
cross-algorithm tables); the output consists exactly of the algorithms with
non-empty result dicts.  For any algorithm bundle with `valid_prs = 0` (e.g.
results overlapping no ground-truth PR), the aggregate ranking metrics are
absent (`none`), not zero or NaN. -/
theorem c5_empty_dict_skipped (gt : GroundTruth)
    (results : List (String × AlgoResult)) (hgt : gt ≠ []) :
    evaluateAlgorithms gt results =
      .ok ((results.filter fun p => !p.2.isEmpty).map
        fun p => (p.1, calcMetrics gt p.2)) ∧
    ∀ res : AlgoResult, validPrs gt res = 0 →
      (calcMetrics gt res).rankingMetrics = none := by
  constructor
  · rcases results with _ | ⟨q, rest⟩
    · rfl
    · rw [evaluateAlgorithms, evaluateAlgorithmsWith]
      simp only [List.isEmpty_cons, if_false, Bool.false_eq_true]
      rw [if_neg (by simpa using hgt)]
      exact evalLoop_total gt (q :: rest)
  · intro res h
    simp [calcMetrics, h]

/-- Witness for `c5_empty_dict_skipped` at a concrete input: algorithm "A"
supplies an empty dict and is dropped, "B" supplies results and is kept. -/
theorem c5_empty_dict_skipped_witness :
    evaluateAlgorithms gt0 [("A", []), ("B", resA)] =
      .ok ((([("A", []), ("B", resA)] : List (String × AlgoResult)).filter
        fun p => !p.2.isEmpty).map fun p => (p.1, calcMetrics gt0 p.2)) ∧
    ∀ res : AlgoResult, validPrs gt0 res = 0 →
      (calcMetrics gt0 res).rankingMetrics = none :=
  c5_empty_dict_skipped gt0 [("A", []), ("B", resA)] (by decide)

/-- The modelled Friedman p-value is a chi-square survival probability, hence
lies in `[0, 1]`. -/
theorem friedmanPValue_bounds (k : Nat) (stat : ℝ) :
    0 ≤ friedmanPValue k stat ∧ friedmanPValue k stat ≤ 1 := by
  have h1 := ProbabilityTheory.cdf_nonneg
    (ProbabilityTheory.gammaMeasure (((k : ℝ) - 1) / 2) (1 / 2)) stat
  have h2 := ProbabilityTheory.cdf_le_one
    (ProbabilityTheory.gammaMeasure (((k : ℝ) - 1) / 2) (1 / 2)) stat
  unfold friedmanPValue ProbabilityTheory.gammaCDFReal
  constructor <;> linarith

/-- Once one pair's test raises, the pairs before it keep their results and no
later pair is tested; the loop ends with the error of the failing pair. -/
theorem runPairs_first_failure (wil : List ℚ → List ℚ → Except String ℚ)
    (f : (String × List ℚ) × (String × List ℚ) → ℚ)
    (done rest : List ((String × List ℚ) × (String × List ℚ)))
    (a b : String × List ℚ) (e : String)
    (hdone : ∀ q ∈ done, wil q.1.2 q.2.2 = .ok (f q))
    (hfail : wil a.2 b.2 = .error e) :
    runPairs wil (done ++ (a, b) :: rest) =
      (done.map fun q => (q.1.1, q.2.1, f q), some e) := by
  induction done with
  | nil => simp [runPairs, hfail]
  | cons q done ih =>
    obtain ⟨qa, qb⟩ := q
    have hq := hdone (qa, qb) (by simp)
    have ih' := ih fun r hr => hdone r (by simp [hr])
    simp only [List.cons_append, runPairs, hq, List.append_eq]
    rw [ih']
    simp

/-- Claim C4 is false on the code: the whole statistical-testing step sits
under one `try`/`except`, so the first failing Wilcoxon pair aborts every
remaining pair.  Here algorithms "A" and "B" have identical sequences: the
pair (A, B) raises, and the pairs (A, C) and (B, C) are never tested even
though the (A, C) test computes fine on its own. -/
theorem c4_counterexample :
    (performStatisticalTesting fstat0 wilcoxonModel
      [("A", seq10), ("B", seq10), ("C", seq10')]).performed = true ∧
    (performStatisticalTesting fstat0 wilcoxonModel
      [("A", seq10), ("B", seq10), ("C", seq10')]).pairResults = [] ∧
    wilcoxonModel seq10 seq10' = .ok 1 := by
  refine ⟨rfl, rfl, rfl⟩

/-- Claim C4, amended: when one pairwise Wilcoxon test fails, the pairs
tested before it keep their results but the failing pair and every pair
after it are skipped; the failure is caught at the level of the whole
statistical-testing step (the step still returns an outcome — with the
Friedman result that was already produced — so the rest of the evaluation
proceeds). -/
theorem c4_failure_aborts_remaining_pairs
    (fstat : List (List ℚ) → ℝ) (wil : List ℚ → List ℚ → Except String ℚ)
    (entries : List (String × List ℚ))
    (f : (String × List ℚ) × (String × List ℚ) → ℚ)
    (done rest : List ((String × List ℚ) × (String × List ℚ)))
    (a b : String × List ℚ) (e : String)
    (hgate : 2 ≤ entries.length ∧ 10 ≤ minLenOf entries)
    (hsplit : allPairs (entries.map fun p => (p.1, p.2.take (minLenOf entries))) =
      done ++ (a, b) :: rest)
    (hdone : ∀ q ∈ done, wil q.1.2 q.2.2 = .ok (f q))
    (hfail : wil a.2 b.2 = .error e) :
    (performStatisticalTesting fstat wil entries).performed = true ∧
    (performStatisticalTesting fstat wil entries).pairResults =
      done.map fun q => (q.1.1, q.2.1, f q) := by
  have hlen : ¬ entries.length < 2 := by omega
  have hrun := runPairs_first_failure wil f done rest a b e hdone hfail
  rw [performStatisticalTesting]
  rw [if_neg hlen]
  simp only [List.length_map]
  rw [if_pos hgate, hsplit, hrun]
  exact ⟨rfl, rfl⟩

/-- Witness for `c4_failure_aborts_remaining_pairs` at a concrete input:
three algorithms, the (A, B) pair fails, no pair result is produced. -/
theorem c4_failure_aborts_remaining_pairs_witness :
    (performStatisticalTesting fstat0 wilcoxonModel
      [("A", seq10'), ("B", seq10), ("C", seq10)]).performed = true ∧
    (performStatisticalTesting fstat0 wilcoxonModel
      [("A", seq10'), ("B", seq10), ("C", seq10)]).pairResults =
      [(("A", seq10'.take 10), ("B", seq10.take 10)),
       (("A", seq10'.take 10), ("C", seq10.take 10))].map
        fun q => (q.1.1, q.2.1, (1 : ℚ)) :=
  c4_failure_aborts_remaining_pairs fstat0 wilcoxonModel
    [("A", seq10'), ("B", seq10), ("C", seq10)] (fun _ => 1)
    [(("A", seq10'.take 10), ("B", seq10.take 10)),
     (("A", seq10'.take 10), ("C", seq10.take 10))]
    []
    ("B", seq10.take 10) ("C", seq10.take 10) "zero differences"
    (by constructor
        · decide
        · decide)
    (by rfl)
    (by intro q hq
        simp only [List.mem_cons, List.not_mem_nil, or_false] at hq
        rcases hq with rfl | rfl
        · rfl
        · rfl)
    (by rfl)

/-- Claim C6: significance testing is performed iff at least 2 algorithms
supply per-item sequences and the shortest sequence has length at least 10;
when it is not performed nothing further happens (no pair results, no
Friedman result); when it is performed the reported Friedman p-value lies in
`[0, 1]`. -/
theorem c6_significance_gate (fstat : List (List ℚ) → ℝ)
    (wil : List ℚ → List ℚ → Except String ℚ)
    (entries : List (String × List ℚ)) :
    ((performStatisticalTesting fstat wil entries).performed = true ↔
      2 ≤ entries.length ∧ 10 ≤ minLenOf entries) ∧
    (∀ p : ℝ, (performStatisticalTesting fstat wil entries).friedmanP = some p →
      0 ≤ p ∧ p ≤ 1) ∧
    ((performStatisticalTesting fstat wil entries).performed = false →
      (performStatisticalTesting fstat wil entries).pairResults = [] ∧
      (performStatisticalTesting fstat wil entries).friedmanP = none) := by
  by_cases h2 : entries.length < 2
  · have hne : ¬ (2 ≤ entries.length ∧ 10 ≤ minLenOf entries) := by omega
    simp [performStatisticalTesting, h2, StatOutcome.performed,
      StatOutcome.friedmanP, StatOutcome.pairResults, hne]
  · by_cases hg : 2 ≤ entries.length ∧ 10 ≤ minLenOf entries
    · rcases hr : (runPairs wil (allPairs
        (entries.map fun p => (p.1, p.2.take (minLenOf entries))))).2 with _ | e
      · refine ⟨?_, ?_, ?_⟩
        · simp [performStatisticalTesting, h2, hg, List.length_map, hr,
            StatOutcome.performed]
        · intro p hp
          simp only [performStatisticalTesting, h2, if_false, List.length_map,
            hg, and_self, if_true, hr, StatOutcome.friedmanP,
            Option.some.injEq] at hp
          exact hp ▸ friedmanPValue_bounds _ _
        · intro hfalse
          rw [show (performStatisticalTesting fstat wil entries).performed = true by
            simp [performStatisticalTesting, h2, hg, List.length_map, hr,
              StatOutcome.performed]] at hfalse
          cases hfalse
      · refine ⟨?_, ?_, ?_⟩
        · simp [performStatisticalTesting, h2, hg, List.length_map, hr,
            StatOutcome.performed]
        · intro p hp
          simp only [performStatisticalTesting, h2, if_false, List.length_map,
            hg, and_self, if_true, hr, StatOutcome.friedmanP,
            Option.some.injEq] at hp
          exact hp ▸ friedmanPValue_bounds _ _
        · intro hfalse
          rw [show (performStatisticalTesting fstat wil entries).performed = true by
            simp [performStatisticalTesting, h2, hg, List.length_map, hr,
              StatOutcome.performed]] at hfalse
          cases hfalse
    · simp [performStatisticalTesting, h2, hg, List.length_map,
        StatOutcome.performed, StatOutcome.friedmanP, StatOutcome.pairResults]

/-- Witness for `c6_significance_gate`: two algorithms with 10 aligned
samples are tested and the Friedman p-value lies in `[0, 1]`; two algorithms
with only 9 samples are not tested and nothing further happens. -/
theorem c6_significance_gate_witness :
    (performStatisticalTesting fstat0 wilcoxonModel
      [("A", seq10), ("B", seq10')]).performed = true ∧
    0 ≤ friedmanPValue 2 (fstat0 [seq10.take 10, seq10'.take 10]) ∧
    friedmanPValue 2 (fstat0 [seq10.take 10, seq10'.take 10]) ≤ 1 ∧
    (performStatisticalTesting fstat0 wilcoxonModel
      [("A", seq9), ("B", seq9)]).performed = false ∧
    (performStatisticalTesting fstat0 wilcoxonModel
      [("A", seq9), ("B", seq9)]).pairResults = [] ∧
    (performStatisticalTesting fstat0 wilcoxonModel
      [("A", seq9), ("B", seq9)]).friedmanP = none := by
  have h10 := c6_significance_gate fstat0 wilcoxonModel [("A", seq10), ("B", seq10')]
  have h9 := c6_significance_gate fstat0 wilcoxonModel [("A", seq9), ("B", seq9)]
  have hsome : (performStatisticalTesting fstat0 wilcoxonModel
      [("A", seq10), ("B", seq10')]).friedmanP =
      some (friedmanPValue 2 (fstat0 [seq10.take 10, seq10'.take 10])) := rfl
  have hp := h10.2.1 _ hsome
  have hnp : (performStatisticalTesting fstat0 wilcoxonModel
      [("A", seq9), ("B", seq9)]).performed = false := rfl
  have h9r := h9.2.2 hnp
  exact ⟨h10.1.mpr (by decide), hp.1, hp.2, hnp, h9r.1, h9r.2⟩

/-- Membership in a shorter prefix implies membership in a longer one. -/
theorem mem_take_mono {α : Type} {l : List α} {k k' : Nat} (h : k ≤ k') {a : α}
    (ha : a ∈ l.take k) : a ∈ l.take k' := by
  induction l generalizing k k' with
  | nil => simp at ha
  | cons x xs ih =>
    cases k with
    | zero => simp at ha
    | succ k =>
      cases k' with
      | zero => omega
      | succ k' =>
        simp only [List.take_succ_cons, List.mem_cons] at ha ⊢
        rcases ha with rfl | ha
        · exact Or.inl rfl
        · exact Or.inr (ih (by omega) ha)

/-- `correct@k` is monotone in `k`: a longer prefix can only contain more
ground-truth reviewers. -/
theorem numCorrect_mono (gt : Finset String) (names : List String) {k k' : Nat}
    (h : k ≤ k') : numCorrect gt names k ≤ numCorrect gt names k' := by
  apply Finset.card_le_card
  intro a ha
  rw [Finset.mem_inter, List.mem_toFinset] at ha ⊢
  exact ⟨mem_take_mono h ha.1, ha.2⟩

/-- `recall@k` is monotone in `k` (the denominator is fixed). -/
theorem recallAt_mono (gt : Finset String) (names : List String) {k k' : Nat}
    (h : k ≤ k') : recallAt gt names k ≤ recallAt gt names k' := by
  unfold recallAt
  by_cases hne : gt.Nonempty
  · rw [if_pos hne, if_pos hne]
    have hc : (0 : ℚ) < gt.card := by
      exact_mod_cast Finset.card_pos.mpr hne
    exact div_le_div_of_nonneg_right
      (by exact_mod_cast numCorrect_mono gt names h) hc.le
  · rw [if_neg hne, if_neg hne]

/-- Claim C8: with at least one ground-truth reviewer for the request,
`recall@k` is non-decreasing over `k ∈ {1, 3, 5, 10}`. -/
theorem c8_recall_monotone (gt : Finset String) (names : List String)
    (_h : gt.Nonempty) :
    recallAt gt names 1 ≤ recallAt gt names 3 ∧
    recallAt gt names 3 ≤ recallAt gt names 5 ∧
    recallAt gt names 5 ≤ recallAt gt names 10 :=
  ⟨recallAt_mono gt names (by omega), recallAt_mono gt names (by omega),
    recallAt_mono gt names (by omega)⟩

/-- Witness for `c8_recall_monotone` on the worked example's request. -/
theorem c8_recall_monotone_witness :
    recallAt gtC1 ["carol", "alice", "bob"] 1 ≤
      recallAt gtC1 ["carol", "alice", "bob"] 3 ∧
    recallAt gtC1 ["carol", "alice", "bob"] 3 ≤
      recallAt gtC1 ["carol", "alice", "bob"] 5 ∧
    recallAt gtC1 ["carol", "alice", "bob"] 5 ≤
      recallAt gtC1 ["carol", "alice", "bob"] 10 :=
  c8_recall_monotone gtC1 ["carol", "alice", "bob"] (by decide)

/-- Inserting an element is, up to permutation, consing it. -/
theorem insertDesc_perm (x : String × ℚ) (l : List (String × ℚ)) :
    (insertDesc x l).Perm (x :: l) := by
  induction l with
  | nil => exact List.Perm.refl _
  | cons y ys ih =>
    rw [insertDesc]
    by_cases h : x.2 < y.2
    · rw [if_pos h]
      exact (ih.cons y).trans (List.Perm.swap x y ys)
    · rw [if_neg h]

/-- The stable descending sort permutes its input. -/
theorem sortDesc_perm (l : List (String × ℚ)) : (sortDesc l).Perm l := by
  induction l with
  | nil => exact List.Perm.refl _
  | cons x xs ih =>
    exact (insertDesc_perm x (sortDesc xs)).trans (ih.cons x)

/-- Distinct dict keys stay distinct after ranking. -/
theorem rankedNames_nodup {recs : List (String × ℚ)}
    (h : (recs.map Prod.fst).Nodup) : (rankedNames recs).Nodup := by
  have hperm : (rankedNames recs).Perm (recs.map Prod.fst) :=
    (sortDesc_perm recs).map Prod.fst
  exact hperm.nodup_iff.mpr h

/-- Claim C10: the ranked candidates are pairwise distinct (they are dict
keys), `correct@k ≤ min(k, |ground truth|)`, and every per-item
`precision@k`, `recall@k`, `f1@k` and `hit@k` lies in `[0, 1]`. -/
theorem c10_per_item_bounds (gt : Finset String) (recs : List (String × ℚ))
    (k : Nat) (hkeys : (recs.map Prod.fst).Nodup) (hk : 0 < k) :
    (rankedNames recs).Nodup ∧
    numCorrect gt (rankedNames recs) k ≤ min k gt.card ∧
    (0 ≤ precisionAt gt (rankedNames recs) k ∧
      precisionAt gt (rankedNames recs) k ≤ 1) ∧
    (0 ≤ recallAt gt (rankedNames recs) k ∧
      recallAt gt (rankedNames recs) k ≤ 1) ∧
    (0 ≤ f1At gt (rankedNames recs) k ∧ f1At gt (rankedNames recs) k ≤ 1) ∧
    (0 ≤ hitAt gt (rankedNames recs) k ∧ hitAt gt (rankedNames recs) k ≤ 1) := by
  set names := rankedNames recs with hnames
  have hle_k : numCorrect gt names k ≤ k := by
    calc numCorrect gt names k ≤ (names.take k).toFinset.card :=
          Finset.card_le_card Finset.inter_subset_left
      _ ≤ (names.take k).length := (names.take k).toFinset_card_le
      _ ≤ k := by
          rw [List.length_take]
          omega
  have hle_gt : numCorrect gt names k ≤ gt.card :=
    Finset.card_le_card Finset.inter_subset_right
  have hprec : 0 ≤ precisionAt gt names k ∧ precisionAt gt names k ≤ 1 := by
    rw [precisionAt, if_pos hk]
    constructor
    · positivity
    · rw [div_le_one (by exact_mod_cast hk)]
      exact_mod_cast hle_k
  have hrec : 0 ≤ recallAt gt names k ∧ recallAt gt names k ≤ 1 := by
    rw [recallAt]
    by_cases hne : gt.Nonempty
    · rw [if_pos hne]
      have hc : (0 : ℚ) < gt.card := by exact_mod_cast Finset.card_pos.mpr hne
      constructor
      · positivity
      · rw [div_le_one hc]
        exact_mod_cast hle_gt
    · rw [if_neg hne]
      norm_num
  refine ⟨rankedNames_nodup hkeys, ?_, hprec, hrec, ?_, ?_⟩
  · omega
  · rw [f1At]
    obtain ⟨hp0, hp1⟩ := hprec
    obtain ⟨hr0, hr1⟩ := hrec
    by_cases hpr : 0 < precisionAt gt names k + recallAt gt names k
    · rw [if_pos hpr]
      constructor
      · positivity
      · rw [div_le_one hpr]
        nlinarith
    · rw [if_neg hpr]
      norm_num
  · rw [hitAt]
    by_cases hh : 0 < numCorrect gt names k
    · rw [if_pos hh]
      norm_num
    · rw [if_neg hh]
      norm_num

/-- Witness for `c10_per_item_bounds` on the worked example at `k = 3`. -/
theorem c10_per_item_bounds_witness :
    (rankedNames recsC1).Nodup ∧
    numCorrect gtC1 (rankedNames recsC1) 3 ≤ min 3 gtC1.card ∧
    (0 ≤ precisionAt gtC1 (rankedNames recsC1) 3 ∧
      precisionAt gtC1 (rankedNames recsC1) 3 ≤ 1) ∧
    (0 ≤ recallAt gtC1 (rankedNames recsC1) 3 ∧
      recallAt gtC1 (rankedNames recsC1) 3 ≤ 1) ∧
    (0 ≤ f1At gtC1 (rankedNames recsC1) 3 ∧
      f1At gtC1 (rankedNames recsC1) 3 ≤ 1) ∧
    (0 ≤ hitAt gtC1 (rankedNames recsC1) 3 ∧
      hitAt gtC1 (rankedNames recsC1) 3 ≤ 1) :=
  c10_per_item_bounds gtC1 recsC1 3 (by decide) (by decide)

/-- The rank weight is positive from rank 1 on. -/
theorem rankWeight_pos {r : Nat} (h : 1 ≤ r) : 0 < rankWeight r := by
  rw [rankWeight]
  have hlog : 0 < Real.logb 2 ((r : ℝ) + 1) := by
    apply Real.logb_pos (by norm_num)
    have : (1 : ℝ) ≤ (r : ℝ) := by exact_mod_cast h
    linarith
  positivity

/-- The rank weight is antitone in the rank (deeper rank, smaller weight). -/
theorem rankWeight_antitone {r s : Nat} (h1 : 1 ≤ r) (hrs : r ≤ s) :
    rankWeight s ≤ rankWeight r := by
  rw [rankWeight, rankWeight]
  have hr1 : (1 : ℝ) ≤ (r : ℝ) := by exact_mod_cast h1
  have hcast : (r : ℝ) ≤ (s : ℝ) := by exact_mod_cast hrs
  have hposr : 0 < Real.logb 2 ((r : ℝ) + 1) :=
    Real.logb_pos (by norm_num) (by linarith)
  have hle : Real.logb 2 ((r : ℝ) + 1) ≤ Real.logb 2 ((s : ℝ) + 1) :=
    Real.logb_le_logb_of_le (by norm_num) (by linarith) (by linarith)
  exact one_div_le_one_div_of_le hposr hle

/-- Rearrangement bound: the sum of an antitone non-negative weight over any
finite set of naturals is at most its sum over the same number of smallest
naturals. -/
theorem sum_antitone_le_range (g : Nat → ℝ)
    (hmono : ∀ i j : Nat, i ≤ j → g j ≤ g i) :
    ∀ (n : Nat) (S : Finset Nat), S.card = n →
      ∑ i ∈ S, g i ≤ ∑ j ∈ Finset.range n, g j := by
  intro n
  induction n with
  | zero =>
    intro S hS
    rw [Finset.card_eq_zero] at hS
    subst hS
    simp
  | succ n ih =>
    intro S hS
    have hne : S.Nonempty := by
      rw [← Finset.card_pos, hS]
      omega
    have hMmem : S.max' hne ∈ S := S.max'_mem hne
    have hcard : (S.erase (S.max' hne)).card = n := by
      rw [Finset.card_erase_of_mem hMmem, hS]
      omega
    have hub : n ≤ S.max' hne := by
      have hsub : S ⊆ Finset.range (S.max' hne + 1) := fun x hx =>
        Finset.mem_range.mpr (Nat.lt_succ_of_le (S.le_max' x hx))
      have hcl := Finset.card_le_card hsub
      rw [hS, Finset.card_range] at hcl
      omega
    calc ∑ i ∈ S, g i
        = ∑ i ∈ S.erase (S.max' hne), g i + g (S.max' hne) :=
          (Finset.sum_erase_add S g hMmem).symm
      _ ≤ ∑ j ∈ Finset.range n, g j + g n :=
          add_le_add (ih _ hcard) (hmono n (S.max' hne) hub)
      _ = ∑ j ∈ Finset.range (n + 1), g j := (Finset.sum_range_succ g n).symm

/-- DCG never exceeds the ideal DCG: with pairwise-distinct candidates, at
most `min(|ground truth|, 10)` positions of the top-10 prefix are relevant,
and moving their weights to the smallest ranks only increases the sum. -/
theorem dcg_le_idcg (gt : Finset String) (names : List String)
    (h : names.Nodup) : dcg gt names ≤ idcg gt := by
  rw [dcg, ← Finset.sum_filter]
  have hlen : min 10 names.length ≤ names.length := by omega
  have hcard10 : ((Finset.range (min 10 names.length)).filter
      (fun i => names.getD i "" ∈ gt)).card ≤ 10 :=
    le_trans (Finset.card_filter_le _ _) (by rw [Finset.card_range]; omega)
  have hcardgt : ((Finset.range (min 10 names.length)).filter
      (fun i => names.getD i "" ∈ gt)).card ≤ gt.card := by
    apply Finset.card_le_card_of_injOn (fun i => names.getD i "")
    · intro i hi
      exact (Finset.mem_filter.mp hi).2
    · intro i hi j hj hij
      have hij' : names.getD i "" = names.getD j "" := hij
      have hi' : i < names.length :=
        lt_of_lt_of_le
          (Finset.mem_range.mp (Finset.mem_filter.mp (Finset.mem_coe.mp hi)).1)
          hlen
      have hj' : j < names.length :=
        lt_of_lt_of_le
          (Finset.mem_range.mp (Finset.mem_filter.mp (Finset.mem_coe.mp hj)).1)
          hlen
      rw [List.getD_eq_getElem names "" hi', List.getD_eq_getElem names "" hj']
        at hij'
      exact (h.getElem_inj_iff).mp hij'
  have hcard : ((Finset.range (min 10 names.length)).filter
      (fun i => names.getD i "" ∈ gt)).card ≤ min gt.card 10 := by omega
  have hmono : ∀ i j : Nat, i ≤ j → rankWeight (j + 1) ≤ rankWeight (i + 1) :=
    fun i j hij => rankWeight_antitone (by omega) (by omega)
  have hnn : ∀ i : Nat, 0 ≤ rankWeight (i + 1) :=
    fun i => (rankWeight_pos (by omega)).le
  calc ∑ i ∈ (Finset.range (min 10 names.length)).filter
        (fun i => names.getD i "" ∈ gt), rankWeight (i + 1)
      ≤ ∑ j ∈ Finset.range (((Finset.range (min 10 names.length)).filter
          (fun i => names.getD i "" ∈ gt)).card), rankWeight (j + 1) :=
        sum_antitone_le_range (fun i => rankWeight (i + 1)) hmono _ _ rfl
    _ ≤ ∑ j ∈ Finset.range (min gt.card 10), rankWeight (j + 1) :=
        Finset.sum_le_sum_of_subset_of_nonneg
          (Finset.range_subset.mpr hcard) (fun j _ _ => hnn j)
    _ = idcg gt := rfl

/-- DCG is a sum of non-negative terms. -/
theorem dcg_nonneg (gt : Finset String) (names : List String) :
    0 ≤ dcg gt names := by
  rw [dcg]
  apply Finset.sum_nonneg
  intro i _
  by_cases hm : names.getD i "" ∈ gt
  · rw [if_pos hm]
    exact (rankWeight_pos (by omega)).le
  · rw [if_neg hm]

/-- Claim C7: for a ranked list with pairwise-distinct candidates,
`idcg ≥ dcg`, hence `ndcg ∈ [0, 1]` (with `ndcg = 0` when `idcg = 0`);
`idcg` is the sum of `1/log2(r+1)` over the first `min(|ground truth|, 10)`
ideal positions, regardless of how many ground-truth reviewers appear in the
top-10. -/
theorem c7_ndcg_bounds (gt : Finset String) (recs : List (String × ℚ))
    (hkeys : (recs.map Prod.fst).Nodup) :
    dcg gt (rankedNames recs) ≤ idcg gt ∧
    0 ≤ ndcg gt (rankedNames recs) ∧
    ndcg gt (rankedNames recs) ≤ 1 ∧
    (idcg gt = 0 → ndcg gt (rankedNames recs) = 0) ∧
    idcg gt = ∑ r ∈ Finset.range (min gt.card 10), rankWeight (r + 1) := by
  have hnodup : (rankedNames recs).Nodup := rankedNames_nodup hkeys
  have hle := dcg_le_idcg gt (rankedNames recs) hnodup
  have hnn := dcg_nonneg gt (rankedNames recs)
  refine ⟨hle, ?_, ?_, ?_, rfl⟩
  · rw [ndcg]
    by_cases h1 : 0 < min gt.card 10
    · rw [if_pos h1]
      by_cases h2 : 0 < idcg gt
      · rw [if_pos h2]
        positivity
      · rw [if_neg h2]
    · rw [if_neg h1]
  · rw [ndcg]
    by_cases h1 : 0 < min gt.card 10
    · rw [if_pos h1]
      by_cases h2 : 0 < idcg gt
      · rw [if_pos h2]
        rw [div_le_one h2]
        exact hle
      · rw [if_neg h2]
        norm_num
    · rw [if_neg h1]
      norm_num
  · intro h0
    rw [ndcg]
    by_cases h1 : 0 < min gt.card 10
    · rw [if_pos h1, if_neg (by rw [h0]; exact lt_irrefl 0)]
    · rw [if_neg h1]

/-- Witness for `c7_ndcg_bounds` on the worked example's request. -/
theorem c7_ndcg_bounds_witness :
    dcg gtC1 (rankedNames recsC1) ≤ idcg gtC1 ∧
    0 ≤ ndcg gtC1 (rankedNames recsC1) ∧
    ndcg gtC1 (rankedNames recsC1) ≤ 1 ∧
    (idcg gtC1 = 0 → ndcg gtC1 (rankedNames recsC1) = 0) ∧
    idcg gtC1 = ∑ r ∈ Finset.range (min gtC1.card 10), rankWeight (r + 1) :=
  c7_ndcg_bounds gtC1 recsC1 (by decide)

/-- Claim C9 is false on the code: the stability record built for
`'ap_scores'` (and likewise `'precision_at_5'`, `'recall_at_5'`) carries no
`'cv'` key — only the `'mrr'` record does. -/
theorem c9_counterexample :
    ((stabilityMetrics gt0 resA).lookup "ap_scores").map StabRecord.cv =
      some none := rfl

/-- Per-item sequence lengths all equal `valid_prs`. -/
theorem scores_length (gt : GroundTruth) (res : AlgoResult) :
    (mrrScores gt res).length = validPrs gt res ∧
    (apScores gt res).length = validPrs gt res ∧
    (precision5Scores gt res).length = validPrs gt res ∧
    (recall5Scores gt res).length = validPrs gt res := by
  refine ⟨?_, ?_, ?_, ?_⟩ <;>
    simp [mrrScores, mrrSequence, apScores, precision5Scores, recall5Scores,
      validPrs]

/-- Claim C9, amended: with at least one valid request, a stability record is
produced for each of the four selected metrics; the `mrr` record carries
`coefficient_of_variation = std/mean` when `mean > 0` and `0` otherwise, but
the records of the other three metrics carry no coefficient of variation at
all; over an empty per-item sequence no stability record is produced. -/
theorem c9_stability_records (gt : GroundTruth) (res : AlgoResult)
    (h : 0 < validPrs gt res) :
    (stabilityMetrics gt res).lookup "mrr" =
      some (stabRecordWithCv (mrrScores gt res)) ∧
    (stabilityMetrics gt res).lookup "ap_scores" =
      some (stabRecordNoCv (apScores gt res)) ∧
    (stabilityMetrics gt res).lookup "precision_at_5" =
      some (stabRecordNoCv (precision5Scores gt res)) ∧
    (stabilityMetrics gt res).lookup "recall_at_5" =
      some (stabRecordNoCv (recall5Scores gt res)) ∧
    (stabRecordWithCv (mrrScores gt res)).cv =
      some (if 0 < listMean (mrrScores gt res) then
        listStd (mrrScores gt res) / ((listMean (mrrScores gt res) : ℚ) : ℝ)
      else 0) ∧
    (stabRecordNoCv (apScores gt res)).cv = none ∧
    (∀ (gt' : GroundTruth) (res' : AlgoResult), mrrScores gt' res' = [] →
      stabilityMetrics gt' res' = []) := by
  obtain ⟨hm, ha, hp, hr⟩ := scores_length gt res
  have hmne : (mrrScores gt res).isEmpty = false := by
    rw [List.isEmpty_eq_false_iff_exists_mem]
    rcases List.exists_mem_of_length_pos (by omega : 0 < (mrrScores gt res).length)
      with ⟨x, hx⟩
    exact ⟨x, hx⟩
  have hane : (apScores gt res).isEmpty = false := by
    rw [List.isEmpty_eq_false_iff_exists_mem]
    rcases List.exists_mem_of_length_pos (by omega : 0 < (apScores gt res).length)
      with ⟨x, hx⟩
    exact ⟨x, hx⟩
  have hpne : (precision5Scores gt res).isEmpty = false := by
    rw [List.isEmpty_eq_false_iff_exists_mem]
    rcases List.exists_mem_of_length_pos
      (by omega : 0 < (precision5Scores gt res).length) with ⟨x, hx⟩
    exact ⟨x, hx⟩
  have hrne : (recall5Scores gt res).isEmpty = false := by
    rw [List.isEmpty_eq_false_iff_exists_mem]
    rcases List.exists_mem_of_length_pos
      (by omega : 0 < (recall5Scores gt res).length) with ⟨x, hx⟩
    exact ⟨x, hx⟩
  have hlist : stabilityMetrics gt res =
      [("mrr", stabRecordWithCv (mrrScores gt res)),
       ("ap_scores", stabRecordNoCv (apScores gt res)),
       ("precision_at_5", stabRecordNoCv (precision5Scores gt res)),
       ("recall_at_5", stabRecordNoCv (recall5Scores gt res))] := by
    rw [stabilityMetrics, if_neg (by rw [hmne]; exact Bool.false_ne_true)]
    simp [List.filterMap, hane, hpne, hrne]
  refine ⟨?_, ?_, ?_, ?_, rfl, rfl, ?_⟩
  · rw [hlist]; rfl
  · rw [hlist]; rfl
  · rw [hlist]; rfl
  · rw [hlist]; rfl
  · intro gt' res' hempty
    rw [stabilityMetrics, if_pos (by rw [hempty]; rfl)]

/-- Witness for `c9_stability_records` at a concrete input with one valid
request. -/
theorem c9_stability_records_witness :
    (stabilityMetrics gt0 resA).lookup "mrr" =
      some (stabRecordWithCv (mrrScores gt0 resA)) ∧
    (stabilityMetrics gt0 resA).lookup "ap_scores" =
      some (stabRecordNoCv (apScores gt0 resA)) ∧
    (stabilityMetrics gt0 resA).lookup "precision_at_5" =
      some (stabRecordNoCv (precision5Scores gt0 resA)) ∧
    (stabilityMetrics gt0 resA).lookup "recall_at_5" =
      some (stabRecordNoCv (recall5Scores gt0 resA)) ∧
    (stabRecordWithCv (mrrScores gt0 resA)).cv =
      some (if 0 < listMean (mrrScores gt0 resA) then
        listStd (mrrScores gt0 resA) / ((listMean (mrrScores gt0 resA) : ℚ) : ℝ)
      else 0) ∧
    (stabRecordNoCv (apScores gt0 resA)).cv = none ∧
    (∀ (gt' : GroundTruth) (res' : AlgoResult), mrrScores gt' res' = [] →
      stabilityMetrics gt' res' = []) :=
  c9_stability_records gt0 resA (by decide)

end ReviewerEval
